import Mathlib

/-!
Shallow embedding of `src/scripts/hash_all_files.py`.

Bytes are modelled as `Nat` values (each `< 256` by construction), byte
strings as `List Nat`.  The Python script's calls into `hashlib` are
embedded by an executable SHA-256 over byte lists together with a model of
`hashlib`'s incremental-update objects (an object whose buffer accumulates
the bytes passed to `update`, and whose `hexdigest` hashes the buffer).
The filesystem is a map from path strings to optional byte contents; file
reads are logged so that fail-fast ordering claims are statable.
-/

namespace LuckyDuck

/-- The modulus of SHA-256's 32-bit word arithmetic, 2^32. -/
def M32 : Nat := 4294967296

/-- Right rotation of a 32-bit word (represented as `Nat < 2^32`). -/
def rotr (n x : Nat) : Nat := ((x >>> n) ||| (x <<< (32 - n))) % M32

/-- SHA-256 Ch function: bitwise choice. -/
def ch (x y z : Nat) : Nat := (x &&& y) ^^^ ((x ^^^ 4294967295) &&& z)

/-- SHA-256 Maj function: bitwise majority. -/
def maj (x y z : Nat) : Nat := (x &&& y) ^^^ (x &&& z) ^^^ (y &&& z)

/-- SHA-256 Σ0. -/
def bigSigma0 (x : Nat) : Nat := rotr 2 x ^^^ rotr 13 x ^^^ rotr 22 x

/-- SHA-256 Σ1. -/
def bigSigma1 (x : Nat) : Nat := rotr 6 x ^^^ rotr 11 x ^^^ rotr 25 x

/-- SHA-256 σ0. -/
def smallSigma0 (x : Nat) : Nat := rotr 7 x ^^^ rotr 18 x ^^^ (x >>> 3)

/-- SHA-256 σ1. -/
def smallSigma1 (x : Nat) : Nat := rotr 17 x ^^^ rotr 19 x ^^^ (x >>> 10)

/-- The 64 SHA-256 round constants, written in decimal. -/
def K : List Nat :=
  [1116352408, 1899447441, 3049323471, 3921009573,
   961987163, 1508970993, 2453635748, 2870763221,
   3624381080, 310598401, 607225278, 1426881987,
   1925078388, 2162078206, 2614888103, 3248222580,
   3835390401, 4022224774, 264347078, 604807628,
   770255983, 1249150122, 1555081692, 1996064986,
   2554220882, 2821834349, 2952996808, 3210313671,
   3336571891, 3584528711, 113926993, 338241895,
   666307205, 773529912, 1294757372, 1396182291,
   1695183700, 1986661051, 2177026350, 2456956037,
   2730485921, 2820302411, 3259730800, 3345764771,
   3516065817, 3600352804, 4094571909, 275423344,
   430227734, 506948616, 659060556, 883997877,
   958139571, 1322822218, 1537002063, 1747873779,
   1955562222, 2024104815, 2227730452, 2361852424,
   2428436474, 2756734187, 3204031479, 3329325298]

/-- The initial SHA-256 hash state, written in decimal. -/
def H0 : List Nat :=
  [1779033703, 3144134277, 1013904242, 2773480762,
   1359893119, 2600822924, 528734635, 1541459225]

/-- SHA-256 padding: append `0x80`, zero bytes up to 56 mod 64, then the
bit length as 8 big-endian bytes. -/
def padMessage (msg : List Nat) : List Nat :=
  let L := msg.length
  let z := (119 - L % 64) % 64
  msg ++ [0x80] ++ List.replicate z 0 ++
    (List.range 8).map (fun i => (L * 8) >>> (8 * (7 - i)) &&& 255)

/-- Split a byte list into chunks of size `sz`, with explicit structural
fuel (the list's length suffices). -/
def chunksFuel (sz : Nat) : Nat → List Nat → List (List Nat)
  | _, [] => []
  | 0, _ :: _ => []
  | fuel + 1, b :: rest => ((b :: rest).take sz) :: chunksFuel sz fuel ((b :: rest).drop sz)

/-- Split a byte list into chunks of size `sz` (the last may be shorter). -/
def chunks (sz : Nat) (l : List Nat) : List (List Nat) := chunksFuel sz l.length l

/-- The 16 initial 32-bit message-schedule words of one 64-byte block. -/
def words16 (block : List Nat) : List Nat :=
  (List.range 16).map (fun i =>
    block.getD (4 * i) 0 * 16777216 + block.getD (4 * i + 1) 0 * 65536 +
    block.getD (4 * i + 2) 0 * 256 + block.getD (4 * i + 3) 0)

/-- Extend 16 schedule words to 64. -/
def schedule (w16 : List Nat) : List Nat :=
  (List.range 48).foldl (fun w _ =>
    let t := w.length
    w ++ [(smallSigma1 (w.getD (t - 2) 0) + w.getD (t - 7) 0 +
           smallSigma0 (w.getD (t - 15) 0) + w.getD (t - 16) 0) % M32]) w16

/-- One SHA-256 compression round on the state `[a,b,c,d,e,f,g,h]`. -/
def compressRound (st : List Nat) (kw : Nat × Nat) : List Nat :=
  match st with
  | [a, b, c, d, e, f, g, h] =>
    let t1 := (h + bigSigma1 e + ch e f g + kw.1 + kw.2) % M32
    let t2 := (bigSigma0 a + maj a b c) % M32
    [(t1 + t2) % M32, a, b, c, (d + t1) % M32, e, f, g]
  | other => other

/-- Process one 64-byte block into the running hash state. -/
def processBlock (h : List Nat) (block : List Nat) : List Nat :=
  let st := ((K.zip (schedule (words16 block))).foldl compressRound h)
  (h.zip st).map (fun p => (p.1 + p.2) % M32)

/-- The eight 32-bit words of the SHA-256 digest of a byte list. -/
def sha256words (msg : List Nat) : List Nat :=
  (chunks 64 (padMessage msg)).foldl processBlock H0

/-- Serialize 32-bit words to big-endian bytes. -/
def wordsToBytes (ws : List Nat) : List Nat :=
  ws.foldl (fun acc w =>
    acc ++ [w >>> 24 &&& 255, w >>> 16 &&& 255, w >>> 8 &&& 255, w &&& 255]) []

/-- One lowercase hexadecimal digit. -/
def hexDigit (n : Nat) : Char :=
  match n with
  | 0 => '0' | 1 => '1' | 2 => '2' | 3 => '3' | 4 => '4' | 5 => '5' | 6 => '6' | 7 => '7'
  | 8 => '8' | 9 => '9' | 10 => 'a' | 11 => 'b' | 12 => 'c' | 13 => 'd' | 14 => 'e'
  | 15 => 'f' | _ => '0'

/-- Lowercase hexadecimal rendering of a byte list, two digits per byte. -/
def toHex (bytes : List Nat) : String :=
  ⟨bytes.foldr (fun b acc => hexDigit (b / 16 % 16) :: hexDigit (b % 16) :: acc) []⟩

/-- The lowercase hexadecimal SHA-256 digest of a byte list: the embedding
of `hashlib.sha256(b).hexdigest()`. -/
def sha256hex (msg : List Nat) : String := toHex (wordsToBytes (sha256words msg))

/-!
## The hashlib object model and UTF-8 encoding

`hashlib.sha256()` returns an object whose `update` calls accumulate bytes
and whose `hexdigest()` is the digest of everything accumulated so far.
-/

/-- An in-progress hash computation: the bytes fed to `update` so far. -/
structure HashObj where
  buffer : List Nat
  deriving Repr, DecidableEq

/-- The embedding of `hashlib.sha256()`: a fresh hash object with an empty buffer. -/
def HashObj.new : HashObj := ⟨[]⟩

/-- The embedding of `hash.update(data)`: append `data` to the accumulated bytes. -/
def HashObj.update (h : HashObj) (data : List Nat) : HashObj := ⟨h.buffer ++ data⟩

/-- The embedding of `hash.hexdigest()`: the lowercase hex SHA-256 digest of the buffer. -/
def HashObj.hexdigest (h : HashObj) : String := sha256hex h.buffer

/-- UTF-8 encoding of one Unicode code point. -/
def encodeChar (c : Nat) : List Nat :=
  if c < 128 then [c]
  else if c < 2048 then [192 ||| (c >>> 6), 128 ||| (c &&& 63)]
  else if c < 65536 then
    [224 ||| (c >>> 12), 128 ||| ((c >>> 6) &&& 63), 128 ||| (c &&& 63)]
  else
    [240 ||| (c >>> 18), 128 ||| ((c >>> 12) &&& 63),
     128 ||| ((c >>> 6) &&& 63), 128 ||| (c &&& 63)]

/-- The embedding of `s.encode("UTF-8")`: the UTF-8 bytes of a string. -/
def utf8Encode (s : String) : List Nat :=
  s.data.foldr (fun c acc => encodeChar c.toNat ++ acc) []

/-!
## The script's functions

`hashString`, `sha256` (the file hasher), `hash_all`, `hashAll_and_save`
and `hashListString` are the embeddings of the functions of the same names
in `src/scripts/hash_all_files.py`.  A filesystem is a map from path
strings to optional byte contents; readers also return the list of paths
whose `open` was attempted, in order, so fail-fast claims are statable.
-/

/-- A filesystem: path string to contents, `none` when the file is absent. -/
abbrev FileSys : Type := String → Option (List Nat)

/-- The embedding of `hashString(stringToHash)`: SHA-256 hex digest of the UTF-8 encoding. -/
def hashString (stringToHash : String) : String :=
  let hash := HashObj.update HashObj.new (utf8Encode stringToHash)
  hash.hexdigest

/-- The embedding of `sha256(filename)`: open the file, feed it to the hash object in
4096-byte chunks, and return the hex digest.  The first component lists
the paths whose `open` was attempted (here just `filename`); a missing
file is Python's `FileNotFoundError`, modelled as `.error`. -/
def sha256 (fs : FileSys) (filename : String) : List String × Except String String :=
  match fs filename with
  | none => ([filename], .error ("FileNotFoundError: " ++ filename))
  | some content =>
    ([filename],
     .ok (((chunks 4096 content).foldl HashObj.update HashObj.new).hexdigest))

/-- The path `hash_all` builds for index `i`: `folder+str(i)+"."+fileExt`
(the dot is appended unconditionally, also for an empty extension). -/
def filePathFor (folder fileExt : String) (i : Nat) : String :=
  folder ++ toString i ++ "." ++ fileExt

/-- The loop body of `hash_all` over the remaining indices: hash each file
in order, abort on the first failure (Python's exception propagation), and
accumulate the insertion-ordered dict (keys are fresh, so `dict.update`
is an append).  Returns the read log alongside the result. -/
def hashAllLoop (fs : FileSys) (folder fileExt : String) :
    List Nat → List (Nat × String) → List String × Except String (List (Nat × String))
  | [], acc => ([], .ok acc)
  | i :: rest, acc =>
    let file := filePathFor folder fileExt i
    let step := sha256 fs file
    match step.2 with
    | .error e => (step.1, .error e)
    | .ok hash =>
      let tail := hashAllLoop fs folder fileExt rest (acc ++ [(i, hash)])
      (step.1 ++ tail.1, tail.2)

/-- The embedding of `hash_all(folder, fileExt, iterations)`: for `i` in
`range(0, iterations, 1)` hash `folder+str(i)+"."+fileExt` and insert
`(i, digest)`.  A negative `iterations` gives an empty range, as in
Python.  Returns (read log, dict or first error). -/
def hash_all (fs : FileSys) (folder fileExt : String) (iterations : Int) :
    List String × Except String (List (Nat × String)) :=
  hashAllLoop fs folder fileExt (List.range iterations.toNat) []

/-- The concatenation loop of `hashAll_and_save`:
`for k in hashesDict: hashes_concat += hashesDict[k]`. -/
def concatHashes (hashesDict : List (Nat × String)) : String :=
  hashesDict.foldl (fun acc kv => acc ++ kv.2) ""

/-- The spec's `aggregate` operation: the concatenated digest string in
ascending index order, paired with `hashString` of that concatenation. -/
def aggregate (hashesDict : List (Nat × String)) : String × String :=
  (concatHashes hashesDict, hashString (concatHashes hashesDict))

/-- One CSV field under the `csv` module's minimal quoting: quote (and
double embedded quote characters) only when the field contains the
delimiter, the quote character or a line break. -/
def csvField (s : String) : String :=
  if s.data.any (fun c => c = ';' || c = '"' || c = '\n' || c = '\r') then
    "\"" ++ ⟨s.data.foldr (fun c acc => if c = '"' then '"' :: '"' :: acc else c :: acc) []⟩ ++ "\""
  else s

/-- The CSV artifact: header row `["token id", alias+" hash (sha256)"]`
then one `;`-delimited row per dict entry, each row `\n`-terminated. -/
def csvText (aliasName : String) (hashesDict : List (Nat × String)) : String :=
  csvField "token id" ++ ";" ++ csvField (aliasName ++ " hash (sha256)") ++ "\n" ++
    hashesDict.foldl (fun acc kv =>
      acc ++ csvField (toString kv.1) ++ ";" ++ csvField kv.2 ++ "\n") ""

/-- The one-digest-per-line text artifact: the loop appends `"\n"` before
the digest only when the dict key `j` satisfies `j > 1`. -/
def buildTxt (hashesDict : List (Nat × String)) : String :=
  hashesDict.foldl
    (fun data_txt kv => (if kv.1 > 1 then data_txt ++ "\n" else data_txt) ++ kv.2) ""

/-- The dictionary returned by `hashAll_and_save`. -/
structure SaveResult where
  dictionary : List (Nat × String)
  concatenated : String
  hashOfAll : String
  deriving Repr, DecidableEq

/-- The embedding of `hashAll_and_save(alias, folder, fileExt, dest_folder, iterations)`:
compute the dict via `hash_all`, the concatenation and the hash of
hashes, then write the four artifacts.  Returns (read log, writes as
(path, content) pairs in write order, result).  A `hash_all` failure
propagates before any output file is opened, so the write list is empty
on the error path, exactly as in the script where all four `open(...,
mode='w')` statements follow the `hash_all` call. -/
def hashAll_and_save (fs : FileSys) (aliasName folder fileExt dest_folder : String)
    (iterations : Int) :
    List String × List (String × String) × Except String SaveResult :=
  let pfx := dest_folder ++ aliasName ++ "_" ++ fileExt ++ "_hash"
  let run := hash_all fs folder fileExt iterations
  match run.2 with
  | .error e => (run.1, [], .error e)
  | .ok hashesDict =>
    let hashes_concat := concatHashes hashesDict
    let hash_of_hashes := hashString hashes_concat
    (run.1,
     [(pfx ++ ".csv", csvText aliasName hashesDict),
      (pfx ++ ".txt", buildTxt hashesDict),
      (pfx ++ "_all_concat.txt", hashes_concat),
      (pfx ++ "_of_hashes.txt", hash_of_hashes)],
     .ok ⟨hashesDict, hashes_concat, hash_of_hashes⟩)

/-- Removal of every newline character, the effect of Python's
`list.replace("\n", "")` for the one-character pattern `"\n"`. -/
def replaceNewlines (s : String) : String := ⟨s.data.filter (fun c => c ≠ '\n')⟩

/-- The embedding of `hashListString(list)`: strip newlines, then `hashString`. -/
def hashListString (l : String) : String := hashString (replaceNewlines l)

/-- The number of lines of a text (one more than the newline count). -/
def lineCount (s : String) : Nat := (s.data.filter (fun c => c = '\n')).length + 1

/-!
## Supporting lemmas
-/

/-- Rechunking loses nothing: the chunks of a byte list flatten back to it,
for any positive chunk size and enough fuel. -/
theorem chunksFuel_flatten (sz : Nat) (hsz : 0 < sz) :
    ∀ (fuel : Nat) (l : List Nat), l.length ≤ fuel → (chunksFuel sz fuel l).flatten = l := by
  intro fuel
  induction fuel with
  | zero =>
    intro l hl
    cases l with
    | nil => rfl
    | cons b rest => simp at hl
  | succ n ih =>
    intro l hl
    cases l with
    | nil => rfl
    | cons b rest =>
      simp only [chunksFuel, List.flatten_cons]
      rw [ih ((b :: rest).drop sz) (by simp at hl ⊢; omega)]
      exact List.take_append_drop sz (b :: rest)

/-- Feeding a list of chunks to a hash object appends their flattening to
its buffer. -/
theorem foldl_update_buffer :
    ∀ (cs : List (List Nat)) (h : HashObj),
      (cs.foldl HashObj.update h).buffer = h.buffer ++ cs.flatten := by
  intro cs
  induction cs with
  | nil => intro h; simp
  | cons c t ih =>
    intro h
    simp [List.foldl_cons, ih, HashObj.update, List.flatten_cons, List.append_assoc]

/-- The file hasher always logs exactly the one path it opens. -/
theorem sha256_reads (fs : FileSys) (filename : String) :
    (sha256 fs filename).1 = [filename] := by
  unfold sha256
  cases fs filename <;> rfl

/-- A digest produced by `sha256` is a `sha256hex` value of some bytes. -/
theorem sha256_ok_digest (fs : FileSys) (filename v : String)
    (h : (sha256 fs filename).2 = .ok v) : ∃ bs, v = sha256hex bs := by
  unfold sha256 at h
  cases hc : fs filename with
  | none => rw [hc] at h; simp at h
  | some content =>
    rw [hc] at h
    simp only [Except.ok.injEq] at h
    exact ⟨_, h.symm⟩

/-- On a successful run the loop's read log is exactly the built path of
every remaining index, in order. -/
theorem hashAllLoop_reads (fs : FileSys) (folder fileExt : String) :
    ∀ (is : List Nat) (acc d : List (Nat × String)),
      (hashAllLoop fs folder fileExt is acc).2 = .ok d →
      (hashAllLoop fs folder fileExt is acc).1
        = is.map (fun i => folder ++ toString i ++ "." ++ fileExt) := by
  intro is
  induction is with
  | nil => intro acc d _; rfl
  | cons i rest ih =>
    intro acc d h
    simp only [hashAllLoop] at h ⊢
    cases hs : (sha256 fs (filePathFor folder fileExt i)).2 with
    | error e => rw [hs] at h; simp at h
    | ok hv =>
      rw [hs] at h
      dsimp only at h ⊢
      rw [sha256_reads, ih (acc ++ [(i, hv)]) d h]
      simp [filePathFor]

/-- On a successful run the loop returns the accumulator extended by one
entry per remaining index, so the key list extends accordingly. -/
theorem hashAllLoop_keys (fs : FileSys) (folder fileExt : String) :
    ∀ (is : List Nat) (acc d : List (Nat × String)),
      (hashAllLoop fs folder fileExt is acc).2 = .ok d →
      d.map Prod.fst = acc.map Prod.fst ++ is := by
  intro is
  induction is with
  | nil =>
    intro acc d h
    simp only [hashAllLoop, Except.ok.injEq] at h
    simp [h]
  | cons i rest ih =>
    intro acc d h
    simp only [hashAllLoop] at h
    cases hs : (sha256 fs (filePathFor folder fileExt i)).2 with
    | error e => rw [hs] at h; simp at h
    | ok hv =>
      rw [hs] at h
      dsimp only at h
      have := ih (acc ++ [(i, hv)]) d h
      simpa [List.map_append] using this

/-- Every value of a successful run is either inherited from the
accumulator or a `sha256hex` digest. -/
theorem hashAllLoop_values (fs : FileSys) (folder fileExt : String) :
    ∀ (is : List Nat) (acc d : List (Nat × String)),
      (hashAllLoop fs folder fileExt is acc).2 = .ok d →
      ∀ kv ∈ d, kv ∈ acc ∨ ∃ bs, kv.2 = sha256hex bs := by
  intro is
  induction is with
  | nil =>
    intro acc d h kv hkv
    simp only [hashAllLoop, Except.ok.injEq] at h
    exact Or.inl (h ▸ hkv)
  | cons i rest ih =>
    intro acc d h kv hkv
    simp only [hashAllLoop] at h
    cases hs : (sha256 fs (filePathFor folder fileExt i)).2 with
    | error e => rw [hs] at h; simp at h
    | ok hv =>
      rw [hs] at h
      dsimp only at h
      rcases ih (acc ++ [(i, hv)]) d h kv hkv with hin | hd
      · rcases List.mem_append.mp hin with hin | hone
        · exact Or.inl hin
        · simp only [List.mem_singleton] at hone
          subst hone
          exact Or.inr (sha256_ok_digest fs (filePathFor folder fileExt i) hv hs)
      · exact Or.inr hd

/-- One compression round preserves the state's length. -/
theorem compressRound_length (st : List Nat) (kw : Nat × Nat) :
    (compressRound st kw).length = st.length := by
  unfold compressRound
  split <;> rfl

/-- Folding compression rounds preserves the state's length. -/
theorem foldl_compressRound_length :
    ∀ (l : List (Nat × Nat)) (st : List Nat), (l.foldl compressRound st).length = st.length := by
  intro l
  induction l with
  | nil => intro st; rfl
  | cons p t ih => intro st; rw [List.foldl_cons, ih, compressRound_length]

/-- Processing a block preserves the hash state's length. -/
theorem processBlock_length (h block : List Nat) :
    (processBlock h block).length = h.length := by
  simp [processBlock, List.length_zip, foldl_compressRound_length]

/-- Folding blocks preserves the hash state's length. -/
theorem foldl_processBlock_length :
    ∀ (bs : List (List Nat)) (h : List Nat), (bs.foldl processBlock h).length = h.length := by
  intro bs
  induction bs with
  | nil => intro h; rfl
  | cons b t ih => intro h; rw [List.foldl_cons, ih, processBlock_length]

/-- The digest state always has eight words. -/
theorem sha256words_length (msg : List Nat) : (sha256words msg).length = 8 := by
  unfold sha256words
  rw [foldl_processBlock_length]
  rfl

/-- Serializing words yields four bytes per word, over any accumulator. -/
theorem wordsToBytes_foldl_length :
    ∀ (ws acc : List Nat),
      (ws.foldl (fun acc w =>
        acc ++ [w >>> 24 &&& 255, w >>> 16 &&& 255, w >>> 8 &&& 255, w &&& 255]) acc).length
        = acc.length + 4 * ws.length := by
  intro ws
  induction ws with
  | nil => intro acc; simp
  | cons w t ih =>
    intro acc
    rw [List.foldl_cons, ih]
    simp [List.length_append]
    omega

/-- Hex rendering yields two characters per byte. -/
theorem hexFoldr_length :
    ∀ bytes : List Nat,
      (bytes.foldr (fun b acc => hexDigit (b / 16 % 16) :: hexDigit (b % 16) :: acc) []).length
        = 2 * bytes.length := by
  intro bytes
  induction bytes with
  | nil => rfl
  | cons b t ih => simp [List.foldr_cons, ih]; omega

/-- Every digest the embedding produces is exactly 64 characters long. -/
theorem sha256hex_length (msg : List Nat) : (sha256hex msg).length = 64 := by
  show (sha256hex msg).data.length = 64
  unfold sha256hex toHex
  rw [hexFoldr_length]
  unfold wordsToBytes
  rw [wordsToBytes_foldl_length]
  rw [sha256words_length]
  rfl

/-- Flattening is injective on lists of uniformly `n`-long blocks of equal
block count. -/
theorem flatten_fixed_length_inj {α : Type} (n : Nat) :
    ∀ l₁ l₂ : List (List α), (∀ x ∈ l₁, x.length = n) → (∀ x ∈ l₂, x.length = n) →
      l₁.length = l₂.length → l₁.flatten = l₂.flatten → l₁ = l₂ := by
  intro l₁
  induction l₁ with
  | nil =>
    intro l₂ _ _ hlen _
    cases l₂ with
    | nil => rfl
    | cons => simp at hlen
  | cons a t ih =>
    intro l₂ h₁ h₂ hlen hflat
    cases l₂ with
    | nil => simp at hlen
    | cons b t₂ =>
      simp only [List.flatten_cons] at hflat
      have ha : a.length = n := h₁ a (by simp)
      have hb : b.length = n := h₂ b (by simp)
      obtain ⟨hab, ht⟩ := List.append_inj hflat (by rw [ha, hb])
      have htt := ih t₂ (fun x hx => h₁ x (by simp [hx])) (fun x hx => h₂ x (by simp [hx]))
        (by simpa using hlen) ht
      rw [hab, htt]

/-- The data of the concatenation fold, over any accumulator. -/
theorem concatHashes_foldl_data :
    ∀ (d : List (Nat × String)) (acc : String),
      (d.foldl (fun a kv => a ++ kv.2) acc).data
        = acc.data ++ (d.map (fun kv => kv.2.data)).flatten := by
  intro d
  induction d with
  | nil => intro acc; simp
  | cons kv t ih =>
    intro acc
    simp [List.foldl_cons, ih, String.data_append, List.append_assoc]

/-- The concatenated digest string is the flattening of the values. -/
theorem concatHashes_data (d : List (Nat × String)) :
    (concatHashes d).data = (d.map (fun kv => kv.2.data)).flatten := by
  have := concatHashes_foldl_data d ""
  simpa [concatHashes] using this

end LuckyDuck

namespace LuckyDuck

/-!
## The claims
-/

/-- Claim C1: for every file whose contents are the byte sequence `b`, the
file hasher `sha256` — which reads incrementally in 4096-byte chunks —
returns the lowercase hexadecimal SHA-256 digest of `b`, equal to the
one-shot digest `sha256hex b`. -/
theorem sha256_chunked_eq_oneshot (fs : FileSys) (filename : String) (b : List Nat)
    (h : fs filename = some b) :
    (sha256 fs filename).2 = .ok (sha256hex b) := by
  unfold sha256
  rw [h]
  simp only [HashObj.hexdigest, Except.ok.injEq]
  rw [foldl_update_buffer]
  show sha256hex ((HashObj.new).buffer ++ (chunks 4096 b).flatten) = sha256hex b
  rw [show (HashObj.new).buffer = [] from rfl, List.nil_append, chunks,
    chunksFuel_flatten 4096 (by norm_num) b.length b le_rfl]

/-- Witness for C1 at the concrete file "f" containing bytes `[97, 98, 99]`. -/
theorem sha256_chunked_eq_oneshot_witness :
    ((fun p => if p = "f" then some [97, 98, 99] else none) : FileSys) "f"
        = some [97, 98, 99] ∧
    (sha256 (fun p => if p = "f" then some [97, 98, 99] else none) "f").2
        = .ok (sha256hex [97, 98, 99]) :=
  ⟨rfl, sha256_chunked_eq_oneshot (fun p => if p = "f" then some [97, 98, 99] else none)
    "f" [97, 98, 99] rfl⟩

/-- Claim C2 (code bug): with three digests at keys 0, 1, 2 the text
artifact receives a line break only before the digest whose key exceeds 1,
so the digests of indices 0 and 1 share the first line and the file has 2
lines, not 3 — the `j > 1` guard contradicts the script's own
"one hash per line" comment. -/
theorem buildTxt_three_items_two_lines :
    buildTxt [(0, "a"), (1, "b"), (2, "c")] = "ab\nc" ∧
    lineCount (buildTxt [(0, "a"), (1, "b"), (2, "c")]) = 2 := by
  constructor <;> rfl

/-- Counterexample to C3 as stated: with the empty extension, `hash_all`
still appends a dot — for folder "f/" and index 0 it opens "f/0.", not
"f/0", so a run over a filesystem holding "f/0" fails. -/
theorem hash_all_empty_ext_counterexample :
    hash_all (fun p => if p = "f/0" then some [97] else none) "f/" "" 1
      = (["f/0."], .error "FileNotFoundError: f/0.") ∧
    ("f/0." : String) ≠ "f/" ++ "0" := by
  exact ⟨rfl, by decide⟩

/-- Claim C3 (amended): for every index `i` and every extension —
including the empty string — `hash_all` builds the path as
`folder + str(i) + "." + extension`; the separating dot is appended
unconditionally, so an empty extension leaves a trailing dot. -/
theorem hash_all_builds_dotted_paths (fs : FileSys) (folder fileExt : String)
    (iterations : Int) (d : List (Nat × String))
    (h : (hash_all fs folder fileExt iterations).2 = .ok d) :
    (hash_all fs folder fileExt iterations).1
      = (List.range iterations.toNat).map (fun i => folder ++ toString i ++ "." ++ fileExt) := by
  unfold hash_all at h ⊢
  exact hashAllLoop_reads fs folder fileExt (List.range iterations.toNat) [] d h

/-- Witness for C3's amended theorem: one index, empty extension, the one
path read is "f/" ++ "0" ++ "." ++ "". -/
theorem hash_all_builds_dotted_paths_witness :
    (hash_all (fun _ => some []) "f/" "" 1).2 = .ok [(0, sha256hex [])] ∧
    (hash_all (fun _ => some []) "f/" "" 1).1
      = (List.range (1 : Int).toNat).map (fun i => "f/" ++ toString i ++ "." ++ "") :=
  ⟨rfl, hash_all_builds_dotted_paths (fun _ => some []) "f/" "" 1 [(0, sha256hex [])] rfl⟩

/-- Claim C4: with the file of index 1 of 3 missing, `hashAll_and_save`
reads only the paths of indices 0 and 1 (never index 2), propagates the
`hash_all` failure, and writes none of the four output files. -/
theorem hashAll_and_save_fail_fast (fs : FileSys) (aliasName folder fileExt dest : String)
    (b : List Nat)
    (h0 : fs (filePathFor folder fileExt 0) = some b)
    (h1 : fs (filePathFor folder fileExt 1) = none) :
    hashAll_and_save fs aliasName folder fileExt dest 3
      = ([filePathFor folder fileExt 0, filePathFor folder fileExt 1], [],
         .error ("FileNotFoundError: " ++ filePathFor folder fileExt 1)) := by
  have hrange : List.range (3 : Int).toNat = [0, 1, 2] := rfl
  unfold hashAll_and_save hash_all
  rw [hrange]
  simp only [hashAllLoop, sha256, h0, h1]
  rfl

/-- Witness for C4 at a concrete filesystem holding only "d/0.x". -/
theorem hashAll_and_save_fail_fast_witness :
    ((fun p => if p = "d/0.x" then some [1] else none) : FileSys)
        (filePathFor "d/" "x" 0) = some [1] ∧
    ((fun p => if p = "d/0.x" then some [1] else none) : FileSys)
        (filePathFor "d/" "x" 1) = none ∧
    hashAll_and_save (fun p => if p = "d/0.x" then some [1] else none) "a" "d/" "x" "o/" 3
      = ([filePathFor "d/" "x" 0, filePathFor "d/" "x" 1], [],
         .error ("FileNotFoundError: " ++ filePathFor "d/" "x" 1)) :=
  ⟨rfl, rfl,
   hashAll_and_save_fail_fast (fun p => if p = "d/0.x" then some [1] else none)
     "a" "d/" "x" "o/" [1] rfl rfl⟩

/-- Claim C5: whenever `hash_all` returns a mapping for a count `≥ 0`, the
mapping has exactly `count` entries and its keys, in insertion (iteration)
order, are `0, 1, ..., count - 1` ascending. -/
theorem hash_all_range_keys (fs : FileSys) (folder fileExt : String) (count : Int)
    (_hc : 0 ≤ count) (d : List (Nat × String))
    (h : (hash_all fs folder fileExt count).2 = .ok d) :
    d.length = count.toNat ∧ d.map Prod.fst = List.range count.toNat := by
  have hk := hashAllLoop_keys fs folder fileExt (List.range count.toNat) [] d h
  simp only [List.map_nil, List.nil_append] at hk
  refine ⟨?_, hk⟩
  have := congrArg List.length hk
  simpa using this

/-- Witness for C5 at a filesystem where every file holds the empty byte
string, with count 2. -/
theorem hash_all_range_keys_witness :
    (0 : Int) ≤ 2 ∧
    (hash_all (fun _ => some []) "f/" "png" 2).2
      = .ok [(0, sha256hex []), (1, sha256hex [])] ∧
    ([(0, sha256hex []), (1, sha256hex [])] : List (Nat × String)).length = (2 : Int).toNat ∧
    ([(0, sha256hex []), (1, sha256hex [])] : List (Nat × String)).map Prod.fst
      = List.range (2 : Int).toNat :=
  ⟨by norm_num, rfl,
   (hash_all_range_keys (fun _ => some []) "f/" "png" 2 (by norm_num) _ rfl).1,
   (hash_all_range_keys (fun _ => some []) "f/" "png" 2 (by norm_num) _ rfl).2⟩

/-- Claim C6: a zero count yields no file reads, an empty ordered mapping,
an empty concatenated string, and a hash of hashes equal to the SHA-256
digest of the empty byte string. -/
theorem hashAll_and_save_zero (fs : FileSys) (aliasName folder fileExt dest : String) :
    (hashAll_and_save fs aliasName folder fileExt dest 0).1 = [] ∧
    (hashAll_and_save fs aliasName folder fileExt dest 0).2.2
      = .ok ⟨[], "", sha256hex []⟩ :=
  ⟨rfl, rfl⟩

/-- Claim C7: the aggregation step is deterministic — equal ordered
mappings give equal (concatenated, provenance hash) pairs — and the
provenance hash is the SHA-256 digest of the UTF-8 encoding of the
concatenated string. -/
theorem aggregate_deterministic (d₁ d₂ : List (Nat × String)) (h : d₁ = d₂) :
    aggregate d₁ = aggregate d₂ ∧
    (aggregate d₁).2 = sha256hex (utf8Encode (aggregate d₁).1) := by
  subst h
  exact ⟨rfl, rfl⟩

/-- Witness for C7 at a concrete one-entry mapping. -/
theorem aggregate_deterministic_witness :
    ([(0, "ab")] : List (Nat × String)) = [(0, "ab")] ∧
    aggregate [(0, "ab")] = aggregate [(0, "ab")] ∧
    (aggregate [(0, "ab")]).2 = sha256hex (utf8Encode (aggregate [(0, "ab")]).1) :=
  ⟨rfl, (aggregate_deterministic [(0, "ab")] [(0, "ab")] rfl).1,
   (aggregate_deterministic [(0, "ab")] [(0, "ab")] rfl).2⟩

/-- Claim C9: a negative iteration count gives an empty range, so
`hash_all` reads no file, raises no error, and returns the empty
mapping. -/
theorem hash_all_negative (fs : FileSys) (folder fileExt : String) (iterations : Int)
    (h : iterations < 0) :
    hash_all fs folder fileExt iterations = ([], .ok []) := by
  have ht : iterations.toNat = 0 := Int.toNat_of_nonpos (le_of_lt h)
  unfold hash_all
  rw [ht]
  rfl

/-- Witness for C9 at iterations = -1 over a filesystem with every file
present (so the empty result cannot come from a read failure). -/
theorem hash_all_negative_witness :
    (-1 : Int) < 0 ∧
    hash_all (fun _ => some [1]) "f/" "png" (-1) = ([], .ok []) :=
  ⟨by norm_num, hash_all_negative (fun _ => some [1]) "f/" "png" (-1) (by norm_num)⟩

/-- Claim C8: the concatenated digest string is order-sensitive — for
ordered mappings carrying the same multiset of 64-character digests in a
genuinely different order, the concatenations differ. -/
theorem concat_order_sensitive (d₁ d₂ : List (Nat × String))
    (hlen : ∀ kv ∈ d₁, kv.2.length = 64)
    (hperm : (d₁.map Prod.snd).Perm (d₂.map Prod.snd))
    (hne : d₁.map Prod.snd ≠ d₂.map Prod.snd) :
    concatHashes d₁ ≠ concatHashes d₂ := by
  intro heq
  apply hne
  have hdata : (d₁.map (fun kv => kv.2.data)).flatten
      = (d₂.map (fun kv => kv.2.data)).flatten := by
    have hq := congrArg String.data heq
    rwa [concatHashes_data, concatHashes_data] at hq
  have hlen₂ : ∀ kv ∈ d₂, kv.2.length = 64 := by
    intro kv hkv
    have hm : kv.2 ∈ d₂.map Prod.snd := List.mem_map_of_mem _ hkv
    have hm₁ : kv.2 ∈ d₁.map Prod.snd := hperm.symm.subset hm
    rcases List.mem_map.mp hm₁ with ⟨kv', hkv', hval⟩
    rw [← hval]
    exact hlen kv' hkv'
  have hl : (d₁.map (fun kv => kv.2.data)).length = (d₂.map (fun kv => kv.2.data)).length := by
    simpa using hperm.length_eq
  have hmaps := flatten_fixed_length_inj 64 (d₁.map fun kv => kv.2.data)
    (d₂.map fun kv => kv.2.data)
    (by
      intro x hx
      rcases List.mem_map.mp hx with ⟨kv, hkv, rfl⟩
      exact hlen kv hkv)
    (by
      intro x hx
      rcases List.mem_map.mp hx with ⟨kv, hkv, rfl⟩
      exact hlen₂ kv hkv)
    hl hdata
  have hdd : (d₁.map Prod.snd).map String.data = (d₂.map Prod.snd).map String.data := by
    simpa [List.map_map] using hmaps
  exact List.map_injective_iff.mpr (fun a b hab => String.ext hab) hdd

/-- Witness for C8: swapping two genuine (distinct) digests across the two
indices changes the concatenation. -/
theorem concat_order_sensitive_witness :
    (∀ kv ∈ ([(0, sha256hex [97]), (1, sha256hex [98])] : List (Nat × String)),
        kv.2.length = 64) ∧
    (([(0, sha256hex [97]), (1, sha256hex [98])] : List (Nat × String)).map Prod.snd).Perm
      (([(0, sha256hex [98]), (1, sha256hex [97])] : List (Nat × String)).map Prod.snd) ∧
    ([(0, sha256hex [97]), (1, sha256hex [98])] : List (Nat × String)).map Prod.snd
      ≠ ([(0, sha256hex [98]), (1, sha256hex [97])] : List (Nat × String)).map Prod.snd ∧
    concatHashes [(0, sha256hex [97]), (1, sha256hex [98])]
      ≠ concatHashes [(0, sha256hex [98]), (1, sha256hex [97])] := by
  have h1 : ∀ kv ∈ ([(0, sha256hex [97]), (1, sha256hex [98])] : List (Nat × String)),
      kv.2.length = 64 := by
    intro kv hkv
    rcases List.mem_cons.mp hkv with h | h
    · rw [h]; exact sha256hex_length [97]
    · rcases List.mem_cons.mp h with h2 | h2
      · rw [h2]; exact sha256hex_length [98]
      · simp at h2
  have h2 : (([(0, sha256hex [97]), (1, sha256hex [98])] : List (Nat × String)).map
      Prod.snd).Perm
      (([(0, sha256hex [98]), (1, sha256hex [97])] : List (Nat × String)).map Prod.snd) := by
    simp only [List.map_cons, List.map_nil]
    exact List.Perm.swap (sha256hex [98]) (sha256hex [97]) []
  have h3 : ([(0, sha256hex [97]), (1, sha256hex [98])] : List (Nat × String)).map Prod.snd
      ≠ ([(0, sha256hex [98]), (1, sha256hex [97])] : List (Nat × String)).map Prod.snd := by
    simp only [List.map_cons, List.map_nil]
    intro h
    injection h with hh _
    exact absurd hh (by decide)
  exact ⟨h1, h2, h3, concat_order_sensitive _ _ h1 h2 h3⟩

/-- Hex digits are never the newline character. -/
theorem hexDigit_ne_newline (n : Nat) : hexDigit n ≠ '\n' := by
  unfold hexDigit
  split <;> decide

/-- The hex rendering fold never emits a newline. -/
theorem hexFoldr_no_newline :
    ∀ bytes : List Nat,
      '\n' ∉ bytes.foldr (fun b acc => hexDigit (b / 16 % 16) :: hexDigit (b % 16) :: acc) [] := by
  intro bytes
  induction bytes with
  | nil => simp
  | cons b t ih =>
    simp only [List.foldr_cons, List.mem_cons]
    intro h
    rcases h with h | h | h
    · exact hexDigit_ne_newline _ h.symm
    · exact hexDigit_ne_newline _ h.symm
    · exact ih h

/-- Digests contain no newline character. -/
theorem sha256hex_no_newline (msg : List Nat) : '\n' ∉ (sha256hex msg).data :=
  hexFoldr_no_newline (wordsToBytes (sha256words msg))

/-- Newline removal distributes over string append. -/
theorem replaceNewlines_append (s t : String) :
    replaceNewlines (s ++ t) = replaceNewlines s ++ replaceNewlines t := by
  unfold replaceNewlines
  rw [show ((⟨s.data.filter (fun c => c ≠ '\n')⟩ : String) ++
      ⟨t.data.filter (fun c => c ≠ '\n')⟩) =
      ⟨s.data.filter (fun c => c ≠ '\n') ++ t.data.filter (fun c => c ≠ '\n')⟩ from rfl]
  congr 1
  rw [String.data_append, List.filter_append]

/-- Newline removal erases a lone newline. -/
theorem replaceNewlines_newline : replaceNewlines "\n" = "" := rfl

/-- Newline removal fixes the empty string. -/
theorem replaceNewlines_empty : replaceNewlines "" = "" := rfl

/-- Newline removal fixes any newline-free string. -/
theorem replaceNewlines_of_no_newline (s : String) (h : '\n' ∉ s.data) :
    replaceNewlines s = s := by
  unfold replaceNewlines
  conv_rhs => rw [show s = ⟨s.data⟩ from rfl]
  congr 1
  apply List.filter_eq_self.mpr
  intro a ha
  rw [decide_eq_true_eq]
  intro heq
  exact h (heq ▸ ha)

/-- Stripping the newlines that the text-artifact fold inserts recovers
the concatenation fold, for newline-free digests, over any pair of
accumulators that agree after newline removal. -/
theorem buildTxt_key :
    ∀ (d : List (Nat × String)) (acc₁ acc₂ : String),
      replaceNewlines acc₁ = acc₂ →
      (∀ kv ∈ d, '\n' ∉ kv.2.data) →
      replaceNewlines
          (d.foldl (fun a kv => (if kv.1 > 1 then a ++ "\n" else a) ++ kv.2) acc₁)
        = d.foldl (fun a kv => a ++ kv.2) acc₂ := by
  intro d
  induction d with
  | nil =>
    intro a₁ a₂ h _
    simpa using h
  | cons kv t ih =>
    intro a₁ a₂ h hnl
    simp only [List.foldl_cons]
    apply ih
    · rw [replaceNewlines_append, replaceNewlines_of_no_newline kv.2 (hnl kv (by simp))]
      by_cases hk : kv.1 > 1
      · rw [if_pos hk, replaceNewlines_append, replaceNewlines_newline, h,
          String.append_empty]
      · rw [if_neg hk, h]
    · intro x hx
      exact hnl x (List.mem_cons_of_mem _ hx)

/-- Claim C10: on every successful run, applying `hashListString` to the
exact content written to the one-digest-per-line text artifact yields the
value written to the hash-of-hashes artifact — removing the inserted line
breaks recovers the concatenated digest string, digests being
newline-free. -/
theorem txt_roundtrip (fs : FileSys) (aliasName folder fileExt dest : String)
    (iterations : Int) (d : List (Nat × String))
    (h : (hash_all fs folder fileExt iterations).2 = .ok d) :
    ((hashAll_and_save fs aliasName folder fileExt dest iterations).2.1[1]?).map Prod.snd
        = some (buildTxt d) ∧
    ((hashAll_and_save fs aliasName folder fileExt dest iterations).2.1[3]?).map Prod.snd
        = some (hashString (concatHashes d)) ∧
    hashListString (buildTxt d) = hashString (concatHashes d) := by
  have hnl : ∀ kv ∈ d, '\n' ∉ kv.2.data := by
    intro kv hkv
    rcases hashAllLoop_values fs folder fileExt (List.range iterations.toNat) [] d h kv hkv
      with hin | ⟨bs, hbs⟩
    · simp at hin
    · rw [hbs]
      exact sha256hex_no_newline bs
  refine ⟨?_, ?_, ?_⟩
  · simp only [hashAll_and_save, hash_all] at h ⊢
    rw [h]
    rfl
  · simp only [hashAll_and_save, hash_all] at h ⊢
    rw [h]
    rfl
  · unfold hashListString
    congr 1
    unfold buildTxt concatHashes
    exact buildTxt_key d "" "" replaceNewlines_empty hnl

/-- Witness for C10 at a one-file filesystem holding the empty byte
string. -/
theorem txt_roundtrip_witness :
    (hash_all (fun _ => some []) "f/" "x" 1).2 = .ok [(0, sha256hex [])] ∧
    ((hashAll_and_save (fun _ => some []) "a" "f/" "x" "o/" 1).2.1[1]?).map Prod.snd
        = some (buildTxt [(0, sha256hex [])]) ∧
    ((hashAll_and_save (fun _ => some []) "a" "f/" "x" "o/" 1).2.1[3]?).map Prod.snd
        = some (hashString (concatHashes [(0, sha256hex [])])) ∧
    hashListString (buildTxt [(0, sha256hex [])])
        = hashString (concatHashes [(0, sha256hex [])]) :=
  ⟨rfl,
   (txt_roundtrip (fun _ => some []) "a" "f/" "x" "o/" 1 [(0, sha256hex [])] rfl).1,
   (txt_roundtrip (fun _ => some []) "a" "f/" "x" "o/" 1 [(0, sha256hex [])] rfl).2.1,
   (txt_roundtrip (fun _ => some []) "a" "f/" "x" "o/" 1 [(0, sha256hex [])] rfl).2.2⟩

end LuckyDuck
